import Mathlib

/-!
Shallow embedding of the content-addressable object store implemented in
`src/rust-git` (the `main.rs` iteration together with the `commands/`,
`object.rs`, `util.rs`, `commit.rs` modules), and proofs about it.

Bytes are modelled as `Nat` (values < 256), byte buffers as `List Nat`,
Rust `String`s as Lean `String`s.  Compression (flate2) is external library
code and is modelled abstractly as a function parameter where it matters.
Rust panics are modelled as the error value `GitErr.panic`, so that
`Except GitErr` distinguishes typed error returns from panics.
-/

/-- Bytes of a (ASCII) string, modelling Rust `str::as_bytes`. -/
def strBytes (s : String) : List Nat := s.data.map Char.toNat

/-- String from bytes, modelling the repo `bytes_to_string` in `util.rs`
(which maps each byte to a char and collects them). -/
def bytes_to_string (bs : List Nat) : String := String.mk (bs.map Char.ofNat)

/-! ## SHA-1 (the 160-bit digest used by the store, from the `sha1` crate) -/

/-- 32-bit left rotation. -/
def rotl32 (n w : Nat) : Nat := ((w * 2 ^ n) % 4294967296) + (w % 4294967296) / 2 ^ (32 - n)

/-- SHA-1 round function. -/
def sha1F (t b c d : Nat) : Nat :=
  if t < 20 then (b &&& c) ||| ((b ^^^ 4294967295) &&& d)
  else if t < 40 then b ^^^ c ^^^ d
  else if t < 60 then (b &&& c) ||| (b &&& d) ||| (c &&& d)
  else b ^^^ c ^^^ d

/-- SHA-1 round constants. -/
def sha1K (t : Nat) : Nat :=
  if t < 20 then 1518500249
  else if t < 40 then 1859775393
  else if t < 60 then 2400959708
  else 3395469782

/-- Big-endian bytes of `n`, width `k` bytes. -/
def beBytes : Nat → Nat → List Nat
  | 0, _ => []
  | k + 1, n => beBytes k (n / 256) ++ [n % 256]

/-- Group bytes into 32-bit big-endian words. -/
def bytesToWords : List Nat → List Nat
  | b0 :: b1 :: b2 :: b3 :: rest => (((b0 * 256 + b1) * 256 + b2) * 256 + b3) :: bytesToWords rest
  | _ => []

/-- Extend a 16-word block to the 80-word message schedule, one word per step. -/
def sha1Extend (ws : List Nat) : Nat → List Nat
  | 0 => ws
  | n + 1 =>
    let k := ws.length
    let wt := rotl32 1 (ws.getD (k - 3) 0 ^^^ ws.getD (k - 8) 0 ^^^
      ws.getD (k - 14) 0 ^^^ ws.getD (k - 16) 0)
    sha1Extend (ws ++ [wt]) n

/-- One SHA-1 compression round per schedule word. -/
def sha1Rounds : Nat → List Nat → Nat × Nat × Nat × Nat × Nat → Nat × Nat × Nat × Nat × Nat
  | _, [], s => s
  | t, w :: ws, (a, b, c, d, e) =>
    let temp := (rotl32 5 a + sha1F t b c d + e + sha1K t + w) % 4294967296
    sha1Rounds (t + 1) ws (temp, a, rotl32 30 b, c, d)

/-- Process one 64-byte block. -/
def sha1Block (h : Nat × Nat × Nat × Nat × Nat) (block : List Nat) :
    Nat × Nat × Nat × Nat × Nat :=
  let (h0, h1, h2, h3, h4) := h
  let w := sha1Extend (bytesToWords block) 64
  let (a, b, c, d, e) := sha1Rounds 0 w (h0, h1, h2, h3, h4)
  ((h0 + a) % 4294967296, (h1 + b) % 4294967296, (h2 + c) % 4294967296,
    (h3 + d) % 4294967296, (h4 + e) % 4294967296)

/-- Merkle–Damgård padding: append 0x80, zeros to 56 mod 64, then the
bit length as 8 big-endian bytes. -/
def sha1Pad (msg : List Nat) : List Nat :=
  msg ++ 128 :: List.replicate ((119 - msg.length % 64) % 64) 0 ++ beBytes 8 (msg.length * 8)

/-- Split a padded message into 64-byte blocks (fuel = number of blocks). -/
def chunks64 : Nat → List Nat → List (List Nat)
  | 0, _ => []
  | n + 1, l => l.take 64 :: chunks64 n (l.drop 64)

/-- SHA-1 digest of a byte sequence, as 20 bytes. -/
def sha1Bytes (msg : List Nat) : List Nat :=
  let padded := sha1Pad msg
  let (h0, h1, h2, h3, h4) := (chunks64 (padded.length / 64) padded).foldl sha1Block
    (1732584193, 4023233417, 2562383102, 271733878, 3285377520)
  beBytes 4 h0 ++ beBytes 4 h1 ++ beBytes 4 h2 ++ beBytes 4 h3 ++ beBytes 4 h4

/-- Lowercase hex digit. -/
def hexDigit (n : Nat) : Char := if n < 10 then Char.ofNat (48 + n) else Char.ofNat (87 + n)

/-- Lowercase hex string of a byte list, modelling `hex::encode`. -/
def hexEncode (bs : List Nat) : String :=
  String.mk (bs.foldr (fun b acc => hexDigit (b / 16) :: hexDigit (b % 16) :: acc) [])

/-- `generate_hash` in `main.rs`: hex of the SHA-1 digest of the buffer. -/
def generate_hash (buf : List Nat) : String := hexEncode (sha1Bytes buf)

/-! ## Decimal and octal formatting (Rust `format!` on integers) -/

/-- Decimal digits (as ASCII bytes) of `n`, fuel-indexed for structural recursion. -/
def natDecAux : Nat → Nat → List Nat
  | 0, _ => []
  | fuel + 1, n => if n < 10 then [48 + n] else natDecAux fuel (n / 10) ++ [48 + n % 10]

/-- ASCII decimal representation of `n`, as produced by Rust `format!` with `{}`. -/
def natDecBytes (n : Nat) : List Nat := natDecAux (n + 1) n

/-- Octal digits (as ASCII bytes) of `n`, fuel-indexed. -/
def natOctAux : Nat → Nat → List Nat
  | 0, _ => []
  | fuel + 1, n => if n < 8 then [48 + n] else natOctAux fuel (n / 8) ++ [48 + n % 8]

/-- ASCII octal representation of `n`, as produced by Rust `format!` with o. -/
def natOctBytes (n : Nat) : List Nat := natOctAux (n + 1) n

/-- Left-pad a byte string with ASCII zeros to width 6 (Rust format spec 0>6). -/
def padZero6 (bs : List Nat) : List Nat := List.replicate (6 - bs.length) 48 ++ bs

/-! ## Error taxonomy of the source (`commands.rs` GitError), with Rust panics
modelled as the extra value `panic` so they stay distinguishable from typed
error returns. -/

inductive GitErr where
  | readObjectError : GitErr
  | invalidObjectId (objId : String) : GitErr
  | ioError : GitErr
  | hexConversionError : GitErr
  | panic : GitErr
deriving DecidableEq, Repr

deriving instance DecidableEq for Except

/-- `GitObjectType` as in `object.rs` (no Tag constructor there). -/
inductive GitObjectType where
  | blob : GitObjectType
  | tree : GitObjectType
  | commit : GitObjectType
deriving DecidableEq, Repr

/-- The Display strings of `GitObjectType`. -/
def kindStr : GitObjectType → String
  | .blob => "blob"
  | .tree => "tree"
  | .commit => "commit"

/-- `GitObjectType::from(&str)` in `object.rs` lines 91-100: unknown kind
strings hit the `panic!` arm rather than a typed error. -/
def gitObjectTypeFrom (value : String) : Except GitErr GitObjectType :=
  if value = "blob" then .ok .blob
  else if value = "tree" then .ok .tree
  else if value = "commit" then .ok .commit
  else .error .panic

/-! ## Header split and length parse -/

/-- Model of `splitn(2, sep)` on byte slices: the bytes before the first
occurrence of `sep`, and (when `sep` occurs) the untouched remainder after
it.  `none` as second component models the iterator yielding one element. -/
def splitFirst (sep : Nat) : List Nat → List Nat × Option (List Nat)
  | [] => ([], none)
  | b :: bs =>
    if b = sep then ([], some bs)
    else
      let (pre, post) := splitFirst sep bs
      (b :: pre, post)

/-- Value of an ASCII decimal digit byte. -/
def digitVal (b : Nat) : Option Nat := if 48 ≤ b ∧ b ≤ 57 then some (b - 48) else none

/-- Fold decimal digit bytes onto an accumulator; any non-digit fails. -/
def parseDecAux : List Nat → Nat → Option Nat
  | [], acc => some acc
  | b :: bs, acc =>
    match digitVal b with
    | some d => parseDecAux bs (acc * 10 + d)
    | none => none

/-- Modelled from the spec: `u8_slice_to_usize` is called by
`GitObject::read` in `object.rs` but its definition is not under `src/`
(the `util.rs` present there is an earlier iteration without it).  Per the
spec §4.1 numeric semantics, sizes are non-negative decimal ASCII integers
and a length field that fails to parse is a hard decode error, never a
default to zero: so the model parses decimal digit bytes and returns `none`
on an empty or non-digit field. -/
def u8_slice_to_usize (bs : List Nat) : Option Nat :=
  match bs with
  | [] => none
  | _ => parseDecAux bs 0

/-- `GitObject::get_object_header` in `object.rs` lines 47-55: split the
header at the first space into kind and length field; a missing space is an
`unwrap` panic; a non-parsing length is the typed `ReadObjectError`. -/
def get_object_header (content : List Nat) : Except GitErr (String × Nat) :=
  match splitFirst 32 content with
  | (_, none) => .error .panic
  | (tbytes, some lenBytes) =>
    match u8_slice_to_usize lenBytes with
    | none => .error .readObjectError
    | some n => .ok (bytes_to_string tbytes, n)

/-- The post-inflate part of `GitObject::read` in `object.rs` lines 17-45:
split the decoded contents at the first null byte into header and body
(a missing null is an `unwrap` panic), parse the header, convert the kind
string (panicking on unknown kinds), and return kind, declared size and the
body bytes.  Note: the declared size is not compared to the body length. -/
def gitObjectReadContents (contents : List Nat) :
    Except GitErr (GitObjectType × Nat × List Nat) :=
  match splitFirst 0 contents with
  | (_, none) => .error .panic
  | (header, some body) =>
    match get_object_header header with
    | .error e => .error e
    | .ok (t, size) =>
      match gitObjectTypeFrom t with
      | .error e => .error e
      | .ok k => .ok (k, size, body)

/-- The uncompressed stream produced by `encode_content` in
`commands/hash_object.rs` lines 89-102 (and by `hash_object` in `main.rs`
lines 214-221 with kind blob): header bytes `blob <len>\0` followed by the
raw content. -/
def encode_content_payload (content : List Nat) : List Nat :=
  strBytes "blob " ++ natDecBytes content.length ++ 0 :: content

/-- `Decode` of the codec: inflate the stored bytes (inflation passed in as
a function, flate2 being external library code), then parse as
`GitObject::read` does. -/
def decodeObject (inflate : List Nat → List Nat) (fileBytes : List Nat) :
    Except GitErr (GitObjectType × Nat × List Nat) :=
  gitObjectReadContents (inflate fileBytes)

/-- `Encode` of the codec for a Blob: deflate-compress the header/body
concatenation (deflation passed in as a function). -/
def encodeObject (deflate : List Nat → List Nat) (content : List Nat) : List Nat :=
  deflate (encode_content_payload content)

/-- `hash_object` in `main.rs` lines 214-232: build the header
`<kind> <len>\0` from the requested object type, concatenate with the raw
content, and hash the uncompressed concatenation with SHA-1. -/
def hash_object_main (objType : String) (content : List Nat) : String :=
  generate_hash (strBytes (objType ++ " ") ++ natDecBytes content.length ++ 0 :: content)

/-! ## Object store: locating and writing object files -/

/-- Rust `str::starts_with`, modelled byte-wise (kernel-reducible, unlike
`String.isPrefixOf`). -/
def strStartsWith (p s : String) : Bool :=
  List.isPrefixOf (p.data.map Char.toNat) (s.data.map Char.toNat)

/-- One two-hex-char object directory: its filenames in iteration order,
and whether `read_dir` succeeds on it. -/
structure ObjDir where
  entries : List String
  readable : Bool
deriving DecidableEq, Repr

/-- `find_object_file` in `util.rs` lines 180-225, over an abstract object
store mapping a two-character directory name to its directory (or `none`
when the directory does not exist).  Returns the full resolved id
(directory name plus matched filename).  Ids shorter than 3 characters,
missing directories and zero matches give `InvalidObjectId`; an exact match
wins; otherwise the scan takes the FIRST filename starting with the
remainder (the `break`), and a failing `read_dir` is a panic. -/
def find_object_file (objId : String) (fs : String → Option ObjDir) :
    Except GitErr String :=
  if objId.length < 3 then .error (.invalidObjectId objId)
  else
    let dirName := objId.take 2
    let id := objId.drop 2
    match fs dirName with
    | none => .error (.invalidObjectId objId)
    | some d =>
      if id ∈ d.entries then .ok (dirName ++ id)
      else if d.readable then
        match d.entries.find? (fun f => strStartsWith id f) with
        | some f => .ok (dirName ++ f)
        | none => .error (.invalidObjectId objId)
      else .error .panic

/-- Filesystem write operations performed by the store, recorded so that
skipped versus re-executed writes are observable. -/
inductive FsOp where
  | createDirAll (d : String) : FsOp
  | createFile (p : String) : FsOp
  | writeAll (p : String) : FsOp
deriving DecidableEq, Repr

/-- Replace-or-append update of a path-to-bytes map, modelling
`File::create` + `write_all` overwriting an existing file in place. -/
def fsUpdate : List (String × List Nat) → String → List Nat → List (String × List Nat)
  | [], p, v => [(p, v)]
  | (q, w) :: rest, p, v =>
    if q = p then (p, v) :: rest else (q, w) :: fsUpdate rest p v

/-- The object path derived from a hash: first 2 hex chars are the
directory, the remaining 38 the filename. -/
def objPath (hash : String) : String := hash.take 2 ++ "/" ++ hash.drop 2

/-- `write_object` in `main.rs` lines 248-261: split the hash, create the
directory, then unconditionally create the file and write the encoded
bytes — there is no existence check before writing. -/
def write_object (st : List (String × List Nat)) (encoded : List Nat) (hash : String) :
    List (String × List Nat) × List FsOp :=
  (fsUpdate st (objPath hash) encoded,
    [.createDirAll (hash.take 2), .createFile (objPath hash), .writeAll (objPath hash)])

/-- `hash_object` in `main.rs` lines 214-232 with `write_to_db` set: hash
the uncompressed header/content concatenation, zlib-compress it (`compress`
abstract), and write the compressed bytes to the object path.  Returns the
hash, the updated store and the write operations performed. -/
def hash_object_w (compress : List Nat → List Nat) (objType : String)
    (content : List Nat) (st : List (String × List Nat)) :
    String × List (String × List Nat) × List FsOp :=
  let buf := strBytes (objType ++ " ") ++ natDecBytes content.length ++ 0 :: content
  let hash := generate_hash buf
  let encoded := compress buf
  let (st2, ops) := write_object st encoded hash
  (hash, st2, ops)

/-! ## Commit parsing (`commit.rs`) -/

/-- Read one line of a byte stream, newline included, modelling
`BufRead::read_line`. -/
def readLine : List Nat → List Nat × List Nat
  | [] => ([], [])
  | b :: bs =>
    if b = 10 then ([10], bs)
    else
      let (l, r) := readLine bs
      (b :: l, r)

/-- ASCII whitespace test used for Rust `str::trim` (over the byte range
this model covers). -/
def isWsByte (b : Nat) : Bool := b = 9 || b = 10 || b = 11 || b = 12 || b = 13 || b = 32

/-- Trim whitespace from both ends, modelling Rust `str::trim`. -/
def trimBytes (bs : List Nat) : List Nat :=
  ((bs.dropWhile isWsByte).reverse.dropWhile isWsByte).reverse

/-- `get_entry` in `commit.rs` lines 45-53: read one line, split it at the
first space, and if the part before the space equals `name`, return the
trimmed remainder (an `unwrap` panic when there is no remainder); otherwise
return `none` — the line is consumed either way. -/
def get_entry (bs : List Nat) (name : String) : Except GitErr (Option String × List Nat) :=
  let (line, rest) := readLine bs
  match splitFirst 32 line with
  | (pre, post) =>
    if bytes_to_string pre = name then
      match post with
      | some p => .ok (some (bytes_to_string (trimBytes p)), rest)
      | none => .error .panic
    else .ok (none, rest)

/-- The commit fields extracted by `Commit::from`. -/
structure CommitM where
  tree : String
  parent : Option String
  author : String
  committer : String
  comment : List Nat
deriving DecidableEq, Repr

/-- `Commit::from(GitObject)` in `commit.rs` lines 18-43: expect a `tree`
line (panic otherwise), probe the next line for `parent` (consuming it even
when it is not a parent line), then expect `author` and `committer` lines
(panic otherwise); everything left is the free-text message. -/
def commitFrom (body : List Nat) : Except GitErr CommitM := do
  let (t, r1) ← get_entry body "tree"
  match t with
  | none => .error .panic
  | some tree =>
    let (p, r2) ← get_entry r1 "parent"
    let (a, r3) ← get_entry r2 "author"
    match a with
    | none => .error .panic
    | some author =>
      let (c, r4) ← get_entry r3 "committer"
      match c with
      | none => .error .panic
      | some committer => .ok ⟨tree, p, author, committer, r4⟩

/-! ## Tree assembler (`commands/write_tree.rs`) -/

/-- `mode_to_string` in `commands/write_tree.rs` lines 145-154: directories
and symlinks keep only the file-type bits formatted in octal (so a
directory prints as `40000`, five digits); regular files format the whole
32-bit mode zero-padded to six octal digits, permission bits untouched;
every other file type hits the `panic!` arm. -/
def mode_to_string (mode : Nat) : Except GitErr String :=
  let t := mode &&& 61440
  if t = 16384 ∨ t = 40960 then .ok (bytes_to_string (natOctBytes t))
  else if t = 32768 then .ok (bytes_to_string (padZero6 (natOctBytes mode)))
  else .error .panic

/-- A collected tree entry: name bytes, mode string, hex hash string. -/
structure TreeEntry where
  name : List Nat
  mode : String
  sha1 : String
deriving DecidableEq, Repr

/-- Numeric comparison, modelling `u8::cmp`. -/
def cmpNat (a b : Nat) : Ordering :=
  if a < b then .lt else if a = b then .eq else .gt

/-- Byte-wise lexicographic comparison, modelling `[u8]::cmp` /
`str::cmp` on the underlying bytes. -/
def cmpBytes : List Nat → List Nat → Ordering
  | [], [] => .eq
  | [], _ :: _ => .lt
  | _ :: _, [] => .gt
  | x :: xs, y :: ys =>
    match cmpNat x y with
    | .eq => cmpBytes xs ys
    | o => o

/-- The name a tree entry is ordered by: directory-typed entries (mode
string `40000`) compare as though suffixed with a slash. -/
def sortKey (e : TreeEntry) : List Nat :=
  if e.mode = "40000" then e.name ++ [47] else e.name

/-- The sort comparator of `write_tree` lines 62-84: compare the common-
length name slices byte-wise first; on equality, compare the names with a
`/` appended to directory-typed entries. -/
def entryCmp (x y : TreeEntry) : Ordering :=
  let common := min x.name.length y.name.length
  match cmpBytes (x.name.take common) (y.name.take common) with
  | .eq => cmpBytes (sortKey x) (sortKey y)
  | o => o

/-- Insert an entry into a list sorted by `entryCmp` (the element goes
before the first element it does not compare Greater to). -/
def insertEntry (e : TreeEntry) : List TreeEntry → List TreeEntry
  | [] => [e]
  | x :: xs =>
    if entryCmp e x = .gt then x :: insertEntry e xs else e :: x :: xs

/-- Comparison sort with the `write_tree` comparator, modelling
`Vec::sort_by` (any comparison sort agrees with it on the inputs considered
here, where all keys are distinct). -/
def sortEntries : List TreeEntry → List TreeEntry
  | [] => []
  | e :: es => insertEntry e (sortEntries es)

/-- Value of a lowercase/uppercase hex digit character. -/
def hexVal (c : Char) : Option Nat :=
  if 48 ≤ c.toNat ∧ c.toNat ≤ 57 then some (c.toNat - 48)
  else if 97 ≤ c.toNat ∧ c.toNat ≤ 102 then some (c.toNat - 87)
  else if 65 ≤ c.toNat ∧ c.toNat ≤ 70 then some (c.toNat - 55)
  else none

/-- `hex::decode`: hex character pairs to bytes, failing on odd length or
non-hex characters. -/
def hexDecode : List Char → Option (List Nat)
  | [] => some []
  | [_] => none
  | c1 :: c2 :: rest => do
    let h ← hexVal c1
    let l ← hexVal c2
    let r ← hexDecode rest
    pure ((h * 16 + l) :: r)

/-- `hex_to_bytes` in `write_tree.rs` lines 104-106. -/
def hex_to_bytes (hex : String) : Except GitErr (List Nat) :=
  match hexDecode hex.data with
  | some bs => .ok bs
  | none => .error .hexConversionError

/-- Serialization loop of `write_tree` lines 86-92: for each entry,
`<mode> <name>\0` followed by the raw 20 hash bytes. -/
def serializeEntries : List TreeEntry → Except GitErr (List Nat)
  | [] => .ok []
  | e :: rest => do
    let hs ← hex_to_bytes e.sha1
    let r ← serializeEntries rest
    .ok (strBytes e.mode ++ 32 :: e.name ++ 0 :: hs ++ r)

/-- Modelled from the spec: the `hash_object` variant that `write_tree`
calls (one that takes the object type from its arguments and returns the
hash string) is not under `src/` — the `commands/hash_object.rs` present
there is a different iteration returning unit.  Per spec §4.1 Encode, the
hash is the 160-bit digest of `"<kind> <len>\0" ++ body`, returned as a
40-hex-character string. -/
def hashObjectSpec (objType : String) (content : List Nat) : String :=
  generate_hash (strBytes (objType ++ " ") ++ natDecBytes content.length ++ 0 :: content)

/-- The in-memory filesystem `write_tree` walks: regular files carry their
32-bit platform mode and content; directories their entries in
`read_dir` iteration order. -/
inductive FsNode where
  | file (mode : Nat) (content : List Nat) : FsNode
  | dir (entries : List (String × FsNode)) : FsNode

/-- Entry-collection loop of `write_tree` lines 38-58 (fuel-indexed for
structural recursion; with fuel at least the number of filesystem nodes it
never hits the fuel-exhaustion arm): subdirectories are recursed into
(building and hashing their tree, `.git` skipped), regular files are
hashed as blobs, and each entry records the `mode_to_string` of its
platform mode (directories all collapse to `40000`, so their permission
bits are fixed at a representative 0o40755 here). -/
def buildEntries : Nat → List (String × FsNode) → Except GitErr (List TreeEntry)
  | _, [] => .ok []
  | 0, _ :: _ => .error .panic
  | fuel + 1, (name, n) :: rest =>
    match n with
    | .file m c => do
      let mode ← mode_to_string m
      let tail ← buildEntries fuel rest
      .ok (⟨strBytes name, mode, hashObjectSpec "blob" c⟩ :: tail)
    | .dir sub =>
      if name = ".git" then buildEntries fuel rest
      else do
        let es ← buildEntries fuel sub
        let body ← serializeEntries (sortEntries es)
        let sha1 := hashObjectSpec "tree" body
        let mode ← mode_to_string 16877
        let tail ← buildEntries fuel rest
        .ok (⟨strBytes name, mode, sha1⟩ :: tail)

/-- `write_tree` in `commands/write_tree.rs` lines 30-102: collect the
entries of a directory, sort them with the comparator, serialize, and hash
the serialization as a tree object.  Returns the tree hash together with
the sorted entry list it serialized. -/
def write_tree (fuel : Nat) (entries : List (String × FsNode)) :
    Except GitErr (String × List TreeEntry) := do
  let es ← buildEntries fuel entries
  let sorted := sortEntries es
  let body ← serializeEntries sorted
  .ok (hashObjectSpec "tree" body, sorted)

/-! ## Concrete instances used by the scenario theorems -/

/-- The spec scenario entry set: files foo.txt and foo2, directory foo. -/
def fooExample : List TreeEntry :=
  [⟨strBytes "foo.txt", "100644", ""⟩, ⟨strBytes "foo", "40000", ""⟩,
    ⟨strBytes "foo2", "100644", ""⟩]

/-- An object store whose directory ab holds two files sharing the
four-character remainder cdef. -/
def demoObjStore : String → Option ObjDir :=
  fun d => if d = "ab" then some ⟨["cdef1111", "cdef2222"], true⟩ else none

/-- An object store whose directory ab exists but cannot be listed
(read_dir fails). -/
def demoUnreadableStore : String → Option ObjDir :=
  fun d => if d = "ab" then some ⟨[], false⟩ else none

/-- A directory holding one regular file a.txt (mode 0o100644) with content
x, and one empty subdirectory sub. -/
def demoDir : List (String × FsNode) :=
  [("a.txt", .file 33188 (strBytes "x")), ("sub", .dir [])]

/-- The store after one write of blob x through main.rs hash_object. -/
def demoStoreOnce : List (String × List Nat) :=
  (hash_object_w id "blob" (strBytes "x") []).2.1

/-! ## Lemmas: decimal formatting parses back -/

theorem natDecAux_fuel_inv (n : Nat) : ∀ fuel, n < fuel → natDecAux fuel n = natDecBytes n := by
  induction n using Nat.strong_induction_on with
  | _ n ih =>
    intro fuel hf
    match fuel, hf with
    | f + 1, _ =>
      show natDecAux (f + 1) n = natDecAux (n + 1) n
      simp only [natDecAux]
      split
      · rfl
      · rename_i hn
        have hdiv : n / 10 < n := Nat.div_lt_self (by omega) (by omega)
        rw [ih (n / 10) hdiv f (by omega), ih (n / 10) hdiv n (by omega)]

theorem parseDecAux_append (xs ys : List Nat) :
    ∀ acc, parseDecAux (xs ++ ys) acc =
      match parseDecAux xs acc with
      | some a => parseDecAux ys a
      | none => none := by
  induction xs with
  | nil => intro acc; simp [parseDecAux]
  | cons b bs ih =>
    intro acc
    simp only [List.cons_append, parseDecAux]
    cases hd : digitVal b with
    | none => simp
    | some d => simp [ih]

theorem parseDec_natDecBytes (n : Nat) : parseDecAux (natDecBytes n) 0 = some n := by
  induction n using Nat.strong_induction_on with
  | _ n ih =>
    by_cases h : n < 10
    · have h1 : natDecBytes n = [48 + n] := by
        show natDecAux (n + 1) n = _
        simp [natDecAux, h]
      have hd : digitVal (48 + n) = some n := by
        unfold digitVal
        rw [if_pos (by omega)]
        congr 1
        omega
      rw [h1]
      simp [parseDecAux, hd]
    · have hdiv : n / 10 < n := Nat.div_lt_self (by omega) (by omega)
      have hstep : natDecBytes n = natDecBytes (n / 10) ++ [48 + n % 10] := by
        show natDecAux (n + 1) n = _
        simp only [natDecAux, if_neg h]
        rw [natDecAux_fuel_inv (n / 10) n (by omega)]
      rw [hstep, parseDecAux_append, ih (n / 10) hdiv]
      have hd : digitVal (48 + n % 10) = some (n % 10) := by
        unfold digitVal
        rw [if_pos (by omega)]
        congr 1
        omega
      simp [parseDecAux, hd]
      omega

theorem natDecAux_digits : ∀ (fuel n b : Nat), b ∈ natDecAux fuel n → 48 ≤ b ∧ b ≤ 57 := by
  intro fuel
  induction fuel with
  | zero => intro n b hb; simp [natDecAux] at hb
  | succ f ih =>
    intro n b hb
    simp only [natDecAux] at hb
    split at hb
    · rename_i h; simp at hb; omega
    · rw [List.mem_append] at hb
      rcases hb with h1 | h2
      · exact ih _ _ h1
      · have hm : n % 10 < 10 := Nat.mod_lt n (by omega)
        simp at h2; omega

theorem natDecBytes_ne_nil (n : Nat) : natDecBytes n ≠ [] := by
  show natDecAux (n + 1) n ≠ []
  simp only [natDecAux]
  split
  · simp
  · simp

theorem u8_natDecBytes (n : Nat) : u8_slice_to_usize (natDecBytes n) = some n := by
  unfold u8_slice_to_usize
  split
  · rename_i heq; exact absurd heq (natDecBytes_ne_nil n)
  · exact parseDec_natDecBytes n

/-! ## Lemmas: splitting at the first separator -/

theorem splitFirst_append (sep : Nat) (xs ys : List Nat) (h : sep ∉ xs) :
    splitFirst sep (xs ++ sep :: ys) = (xs, some ys) := by
  induction xs with
  | nil => simp [splitFirst]
  | cons b bs ih =>
    simp only [List.mem_cons, not_or] at h
    obtain ⟨h1, h2⟩ := h
    simp only [List.cons_append, splitFirst, List.append_eq]
    rw [if_neg (fun hb => h1 hb.symm), ih h2]

/-! ## Lemmas: decoding an encoded payload -/

theorem natDecBytes_digit (n b : Nat) (h : b ∈ natDecBytes n) : 48 ≤ b ∧ b ≤ 57 :=
  natDecAux_digits (n + 1) n b h

theorem bytes_to_string_kindStr (k : GitObjectType) :
    bytes_to_string (strBytes (kindStr k)) = kindStr k := by
  cases k <;> decide

theorem gitObjectTypeFrom_kindStr (k : GitObjectType) :
    gitObjectTypeFrom (kindStr k) = .ok k := by
  cases k <;> decide

theorem get_object_header_payload (k : GitObjectType) (sz : Nat) :
    get_object_header (strBytes (kindStr k) ++ 32 :: natDecBytes sz) = .ok (kindStr k, sz) := by
  have h32 : (32 : Nat) ∉ strBytes (kindStr k) := by cases k <;> decide
  unfold get_object_header
  rw [splitFirst_append 32 _ _ h32]
  simp only [u8_natDecBytes, bytes_to_string_kindStr]

theorem decode_payload (k : GitObjectType) (sz : Nat) (b : List Nat) :
    gitObjectReadContents (strBytes (kindStr k) ++ 32 :: (natDecBytes sz ++ 0 :: b)) =
      .ok (k, sz, b) := by
  have h0 : (0 : Nat) ∉ strBytes (kindStr k) ++ 32 :: natDecBytes sz := by
    intro hmem
    rcases List.mem_append.mp hmem with h1 | h2
    · revert h1; cases k <;> decide
    · rcases List.mem_cons.mp h2 with h3 | h4
      · omega
      · have := natDecBytes_digit sz 0 h4; omega
  have hsp : strBytes (kindStr k) ++ 32 :: (natDecBytes sz ++ 0 :: b) =
      (strBytes (kindStr k) ++ 32 :: natDecBytes sz) ++ 0 :: b := by simp
  unfold gitObjectReadContents
  rw [hsp, splitFirst_append 0 _ _ h0]
  simp [get_object_header_payload, gitObjectTypeFrom_kindStr]

/-! ## Lemmas: the byte-wise comparator is a linear order -/

theorem cmpNat_eq_iff {a b : Nat} : cmpNat a b = .eq ↔ a = b := by
  unfold cmpNat
  split_ifs with h1 h2 <;> simp <;> omega

theorem cmpNat_lt_iff {a b : Nat} : cmpNat a b = .lt ↔ a < b := by
  unfold cmpNat
  split_ifs with h1 h2 <;> simp <;> omega

theorem cmpNat_swap (a b : Nat) : cmpNat b a = (cmpNat a b).swap := by
  unfold cmpNat
  split_ifs <;> simp [Ordering.swap] <;> omega

theorem cmpBytes_eq_iff : ∀ (xs ys : List Nat), cmpBytes xs ys = .eq ↔ xs = ys
  | [], [] => by simp [cmpBytes]
  | [], _ :: _ => by simp [cmpBytes]
  | _ :: _, [] => by simp [cmpBytes]
  | x :: xs, y :: ys => by
    simp only [cmpBytes]
    cases h : cmpNat x y with
    | eq =>
      have hxy : x = y := cmpNat_eq_iff.mp h
      simp [cmpBytes_eq_iff xs ys, hxy]
    | lt =>
      have hxy : x ≠ y := by have := cmpNat_lt_iff.mp h; omega
      simp [hxy]
    | gt =>
      have hxy : x ≠ y := by
        intro he
        rw [cmpNat_eq_iff.mpr he] at h
        exact Ordering.noConfusion h
      simp [hxy]

theorem cmpBytes_swap : ∀ (xs ys : List Nat), cmpBytes ys xs = (cmpBytes xs ys).swap
  | [], [] => by simp [cmpBytes, Ordering.swap]
  | [], _ :: _ => by simp [cmpBytes, Ordering.swap]
  | _ :: _, [] => by simp [cmpBytes, Ordering.swap]
  | x :: xs, y :: ys => by
    simp only [cmpBytes, cmpNat_swap x y]
    cases h : cmpNat x y <;> simp [Ordering.swap, cmpBytes_swap xs ys]

theorem cmpBytes_lt_trans :
    ∀ (xs ys zs : List Nat), cmpBytes xs ys = .lt → cmpBytes ys zs = .lt →
      cmpBytes xs zs = .lt
  | [], [], _, h1, _ => by simp [cmpBytes] at h1
  | [], _ :: _, [], _, h2 => by simp [cmpBytes] at h2
  | [], _ :: _, _ :: _, _, _ => by simp [cmpBytes]
  | _ :: _, [], _, h1, _ => by simp [cmpBytes] at h1
  | _ :: _, _ :: _, [], _, h2 => by simp [cmpBytes] at h2
  | x :: xs, y :: ys, z :: zs, h1, h2 => by
    simp only [cmpBytes] at h1 h2 ⊢
    cases hxy : cmpNat x y <;> rw [hxy] at h1 <;> cases hyz : cmpNat y z <;> rw [hyz] at h2
    · -- lt, lt
      have hx : x < y := cmpNat_lt_iff.mp hxy
      have hy : y < z := cmpNat_lt_iff.mp hyz
      rw [cmpNat_lt_iff.mpr (by omega)]
    · -- lt, eq
      have hx : x < y := cmpNat_lt_iff.mp hxy
      have hy : y = z := cmpNat_eq_iff.mp hyz
      rw [cmpNat_lt_iff.mpr (by omega)]
    · exact absurd h2 (by simp)
    · -- eq, lt
      have hx : x = y := cmpNat_eq_iff.mp hxy
      have hy : y < z := cmpNat_lt_iff.mp hyz
      rw [cmpNat_lt_iff.mpr (by omega)]
    · -- eq, eq
      have hx : x = y := cmpNat_eq_iff.mp hxy
      have hy : y = z := cmpNat_eq_iff.mp hyz
      rw [cmpNat_eq_iff.mpr (by omega)]
      exact cmpBytes_lt_trans xs ys zs h1 h2
    · exact absurd h2 (by simp)
    · exact absurd h1 (by simp)
    · exact absurd h1 (by simp)
    · exact absurd h1 (by simp)

theorem cmpBytes_append_of_ne :
    ∀ (xs ys us vs : List Nat), xs.length = ys.length → cmpBytes xs ys ≠ .eq →
      cmpBytes (xs ++ us) (ys ++ vs) = cmpBytes xs ys
  | [], [], _, _, _, hne => absurd (by simp [cmpBytes]) hne
  | [], _ :: _, _, _, hlen, _ => by simp at hlen
  | _ :: _, [], _, _, hlen, _ => by simp at hlen
  | x :: xs, y :: ys, us, vs, hlen, hne => by
    simp only [List.cons_append, cmpBytes]
    cases h : cmpNat x y with
    | eq =>
      simp only [cmpBytes, h] at hne
      exact cmpBytes_append_of_ne xs ys us vs (by simpa using hlen) hne
    | lt => rfl
    | gt => rfl

/-! ## Lemmas: the write_tree comparator orders by slash-suffixed keys -/

theorem sortKey_eq_append (x : TreeEntry) :
    sortKey x = x.name ++ (if x.mode = "40000" then [47] else []) := by
  unfold sortKey
  split_ifs <;> simp

theorem entryCmp_eq_keyCmp (x y : TreeEntry) :
    entryCmp x y = cmpBytes (sortKey x) (sortKey y) := by
  unfold entryCmp
  cases h : cmpBytes (x.name.take (min x.name.length y.name.length))
      (y.name.take (min x.name.length y.name.length)) with
  | eq => simp [h]
  | lt =>
    simp only [h]
    have hx : sortKey x = x.name.take (min x.name.length y.name.length) ++
        (x.name.drop (min x.name.length y.name.length) ++
          (if x.mode = "40000" then [47] else [])) := by
      rw [sortKey_eq_append, ← List.append_assoc, List.take_append_drop]
    have hy : sortKey y = y.name.take (min x.name.length y.name.length) ++
        (y.name.drop (min x.name.length y.name.length) ++
          (if y.mode = "40000" then [47] else [])) := by
      rw [sortKey_eq_append, ← List.append_assoc, List.take_append_drop]
    rw [hx, hy, cmpBytes_append_of_ne _ _ _ _ (by
      simp [List.length_take, Nat.min_le_left, Nat.min_le_right]) (by simp [h]), h]
  | gt =>
    simp only [h]
    have hx : sortKey x = x.name.take (min x.name.length y.name.length) ++
        (x.name.drop (min x.name.length y.name.length) ++
          (if x.mode = "40000" then [47] else [])) := by
      rw [sortKey_eq_append, ← List.append_assoc, List.take_append_drop]
    have hy : sortKey y = y.name.take (min x.name.length y.name.length) ++
        (y.name.drop (min x.name.length y.name.length) ++
          (if y.mode = "40000" then [47] else [])) := by
      rw [sortKey_eq_append, ← List.append_assoc, List.take_append_drop]
    rw [hx, hy, cmpBytes_append_of_ne _ _ _ _ (by
      simp [List.length_take, Nat.min_le_left, Nat.min_le_right]) (by simp [h]), h]

theorem entryCmp_not_gt_of_gt {x y : TreeEntry} (h : entryCmp x y = .gt) :
    entryCmp y x ≠ .gt := by
  rw [entryCmp_eq_keyCmp] at h ⊢
  rw [cmpBytes_swap, h]
  simp [Ordering.swap]

theorem entryCmp_not_gt_trans {x y z : TreeEntry} (h1 : entryCmp x y ≠ .gt)
    (h2 : entryCmp y z ≠ .gt) : entryCmp x z ≠ .gt := by
  rw [entryCmp_eq_keyCmp] at h1 h2 ⊢
  cases hxy : cmpBytes (sortKey x) (sortKey y) with
  | gt => exact absurd hxy h1
  | eq =>
    rw [(cmpBytes_eq_iff _ _).mp hxy]
    exact h2
  | lt =>
    cases hyz : cmpBytes (sortKey y) (sortKey z) with
    | gt => exact absurd hyz h2
    | eq => rw [← (cmpBytes_eq_iff _ _).mp hyz, hxy]; simp
    | lt => rw [cmpBytes_lt_trans _ _ _ hxy hyz]; simp

/-! ## Lemmas: insertion with the comparator preserves sortedness -/

theorem mem_insertEntry {a e : TreeEntry} :
    ∀ {l : List TreeEntry}, a ∈ insertEntry e l ↔ a = e ∨ a ∈ l := by
  intro l
  induction l with
  | nil => simp [insertEntry]
  | cons x xs ih =>
    simp only [insertEntry]
    split_ifs with h
    · simp only [List.mem_cons, ih]
      tauto
    · simp only [List.mem_cons]

theorem perm_insertEntry (e : TreeEntry) :
    ∀ (l : List TreeEntry), List.Perm (insertEntry e l) (e :: l) := by
  intro l
  induction l with
  | nil => simp [insertEntry]
  | cons x xs ih =>
    simp only [insertEntry]
    split_ifs with h
    · exact (ih.cons x).trans (List.Perm.swap e x xs)
    · exact List.Perm.refl _

theorem sortEntries_perm (l : List TreeEntry) : List.Perm (sortEntries l) l := by
  induction l with
  | nil => simp [sortEntries]
  | cons e es ih =>
    exact (perm_insertEntry e (sortEntries es)).trans (ih.cons e)

theorem pairwise_insertEntry {e : TreeEntry} :
    ∀ {l : List TreeEntry}, l.Pairwise (fun a b => entryCmp a b ≠ .gt) →
      (insertEntry e l).Pairwise (fun a b => entryCmp a b ≠ .gt) := by
  intro l
  induction l with
  | nil => intro _; simp [insertEntry]
  | cons x xs ih =>
    intro h
    rw [List.pairwise_cons] at h
    simp only [insertEntry]
    split_ifs with hc
    · rw [List.pairwise_cons]
      refine ⟨?_, ih h.2⟩
      intro b hb
      rcases mem_insertEntry.mp hb with rfl | hbx
      · exact entryCmp_not_gt_of_gt hc
      · exact h.1 b hbx
    · rw [List.pairwise_cons]
      refine ⟨?_, List.pairwise_cons.mpr h⟩
      intro b hb
      rcases List.mem_cons.mp hb with rfl | hbx
      · exact hc
      · exact entryCmp_not_gt_trans hc (h.1 b hbx)

theorem sortEntries_pairwise (l : List TreeEntry) :
    (sortEntries l).Pairwise (fun a b => entryCmp a b ≠ .gt) := by
  induction l with
  | nil => simp [sortEntries]
  | cons e es ih => exact pairwise_insertEntry ih

/-! ## Lemmas: distinct slash-free names give distinct sort keys -/

theorem sortKey_ne_of_name_ne {a b : TreeEntry} (ha : 47 ∉ a.name) (hb : 47 ∉ b.name)
    (hne : a.name ≠ b.name) : sortKey a ≠ sortKey b := by
  rw [sortKey_eq_append, sortKey_eq_append]
  split_ifs with h1 h2 h2
  · intro h
    exact hne (by simpa using congrArg List.dropLast h)
  · intro h
    simp only [List.append_nil] at h
    exact hb (h ▸ List.mem_append_right a.name (by simp))
  · intro h
    simp only [List.append_nil] at h
    apply ha
    rw [h]
    exact List.mem_append_right b.name (by simp)
  · simpa using hne

/-! ## Lemmas: in-place filesystem update -/

theorem fsUpdate_idem : ∀ (st : List (String × List Nat)) (p : String) (v : List Nat),
    fsUpdate (fsUpdate st p v) p v = fsUpdate st p v := by
  intro st p v
  induction st with
  | nil => simp [fsUpdate]
  | cons qw rest ih =>
    obtain ⟨q, w⟩ := qw
    by_cases h : q = p
    · simp [fsUpdate, h]
    · simp [fsUpdate, h, ih]

theorem count_fsUpdate : ∀ (st : List (String × List Nat)) (p : String) (v : List Nat),
    (st.map Prod.fst).Nodup → ((fsUpdate st p v).map Prod.fst).count p = 1 := by
  intro st p v
  induction st with
  | nil => intro _; simp [fsUpdate]
  | cons qw rest ih =>
    obtain ⟨q, w⟩ := qw
    intro hnd
    simp only [List.map_cons, List.nodup_cons] at hnd
    by_cases h : q = p
    · subst h
      rw [show fsUpdate ((q, w) :: rest) q v = (q, v) :: rest from by simp [fsUpdate]]
      simp only [List.map_cons, List.count_cons_self]
      rw [List.count_eq_zero_of_not_mem hnd.1]
    · simp only [fsUpdate, if_neg h, List.map_cons]
      rw [List.count_cons_of_ne (fun hpq => h hpq.symm), ih hnd.2]

/-! ## Claim theorems -/

set_option maxRecDepth 10000 in
/-- C1 counterexample: the digest of `blob 6\0hello\n` — which is what the
`main.rs` iteration computes for a Blob with body `hello\n`, hashing the
uncompressed header/body concatenation — is not the value
e965047ad7c57865823c7d992b1d046ea66edf78 the claim states. -/
theorem C1_counterexample :
    hash_object_main "blob" (strBytes "hello\x0a") ≠
      "e965047ad7c57865823c7d992b1d046ea66edf78" := by
  decide

set_option maxRecDepth 10000 in
/-- C1 (amended): `hash_object` in `main.rs` builds the header
`blob 6\0` for the six-byte body `hello\n`, digests the uncompressed
concatenation, and returns the 40-hex-character hash
ce013625030ba8dba906f756967f9e9ca394464a, the SHA-1 of `blob 6\0hello\n`. -/
theorem C1_blob_hello_hash :
    hash_object_main "blob" (strBytes "hello\x0a") =
      "ce013625030ba8dba906f756967f9e9ca394464a" := by
  decide

/-- C2: `find_object_file` resolves the five-character id abcdef, whose
remainder cdef is a prefix of both filenames in directory ab, to the FIRST
match abcdef1111 with no ambiguity error; zero matches and a missing
directory give InvalidObjectId; each full id resolves exactly. -/
theorem C2_prefix_first_match :
    find_object_file "abcdef" demoObjStore = .ok "abcdef1111" ∧
    find_object_file "abcdef1111" demoObjStore = .ok "abcdef1111" ∧
    find_object_file "abcdef2222" demoObjStore = .ok "abcdef2222" ∧
    find_object_file "abzzz" demoObjStore = .error (.invalidObjectId "abzzz") ∧
    find_object_file "cdxyz" demoObjStore = .error (.invalidObjectId "cdxyz") ∧
    find_object_file "ab" demoObjStore = .error (.invalidObjectId "ab") := by
  decide

/-- C3: round-trip of the codec — decoding (with any inflate that inverts
the deflate used for encoding) an encoded Blob returns the Blob kind, the
body length and the body unchanged; the split is at the first null byte
only, so bodies holding nulls (even at offset 0, as in the witness) are
returned intact. -/
theorem C3_roundtrip (inflate deflate : List Nat → List Nat) (b : List Nat)
    (h : ∀ x, inflate (deflate x) = x) :
    decodeObject inflate (encodeObject deflate b) =
      .ok (GitObjectType.blob, b.length, b) := by
  unfold decodeObject encodeObject encode_content_payload
  rw [h]
  have h1 : strBytes "blob " = strBytes (kindStr GitObjectType.blob) ++ [32] := by decide
  rw [h1]
  simp only [List.append_assoc, List.singleton_append]
  exact decode_payload .blob b.length b

/-- C3 witness: the round-trip at the two-byte body `\0A`, whose first byte
is a null, with the identity as the deflate/inflate pair. -/
theorem C3_roundtrip_witness :
    (∀ x : List Nat, id (id x) = x) ∧
    decodeObject id (encodeObject id [0, 65]) = .ok (GitObjectType.blob, 2, [0, 65]) :=
  ⟨fun _ => rfl, C3_roundtrip id id [0, 65] (fun _ => rfl)⟩

/-- C4: `Commit::from` panics (no typed InvalidCommitFormat exists) on a
well-formed commit body with no parent line, because probing for `parent`
consumes the author line; it panics on a body with `parent` before `tree`;
a body with all four lines in order parses, keeping the blank line at the
head of the message. -/
theorem C4_commit_parse :
    commitFrom (strBytes "tree 1234\x0aauthor a b\x0acommitter c d\x0a\x0amsg\x0a") =
      .error .panic ∧
    commitFrom (strBytes "parent 99\x0atree 1234\x0aauthor a b\x0acommitter c d\x0a\x0am") =
      .error .panic ∧
    commitFrom (strBytes "tree 1234\x0aparent 99\x0aauthor a b\x0acommitter c d\x0a\x0ahi") =
      .ok ⟨"1234", some "99", "a b", "c d", strBytes "\x0ahi"⟩ := by
  decide

/-- C7: decoding returns the declared size alongside the body with no
comparison of the two (the equation holds for every `sz`, also when it
differs from `b.length`); a length field that is not decimal ASCII is the
hard error ReadObjectError, never a default zero. -/
theorem C7_header_parse (k : GitObjectType) (sz : Nat) (b : List Nat) :
    gitObjectReadContents (strBytes (kindStr k) ++ 32 :: (natDecBytes sz ++ 0 :: b)) =
      .ok (k, sz, b) ∧
    u8_slice_to_usize (strBytes "3x") = none ∧
    gitObjectReadContents (strBytes "blob 3x\x00abc") = .error .readObjectError :=
  ⟨decode_payload k sz b, by decide, by decide⟩

/-- C7 counterexample: a declared size of 3 over the two-byte body `hi`
decodes successfully — no DecodeError despite the mismatch. -/
theorem C7_counterexample :
    gitObjectReadContents (strBytes "blob 3\x00hi") =
      .ok (GitObjectType.blob, 3, strBytes "hi") := by
  decide

/-- C9: two failure conditions are signalled by panics, not typed results:
a decoded header whose kind string is `tag` (or anything outside
blob/tree/commit) hits the `panic!` arm of `GitObjectType::from`, and an
object directory whose listing fails during prefix resolution hits the
`unwrap_or_else(panic!)` in `find_object_file`. -/
theorem C9_panic_paths :
    gitObjectTypeFrom "tag" = .error .panic ∧
    find_object_file "abcde" demoUnreadableStore = .error .panic := by
  decide

set_option maxRecDepth 10000 in
/-- C5 counterexample: with the object path of blob x already present in
the store after a first write, a second write of the same blob still
performs the full create-directory/create-file/write sequence — nothing is
skipped. -/
theorem C5_counterexample :
    "c1/b0730e0133447badcfd47fd144e254807b06e1" ∈ demoStoreOnce.map Prod.fst ∧
    (hash_object_w id "blob" (strBytes "x") demoStoreOnce).2.2 =
      [.createDirAll "c1",
        .createFile "c1/b0730e0133447badcfd47fd144e254807b06e1",
        .writeAll "c1/b0730e0133447badcfd47fd144e254807b06e1"] := by
  decide

/-- C5 (amended): the write path never checks existence and always
re-encodes and re-writes in place; still, writing the same object twice
returns the same hash both times, leaves the store as after one write, and
leaves exactly one file at the object path. -/
theorem C5_idempotent_rewrite (compress : List Nat → List Nat) (t : String)
    (c : List Nat) (st : List (String × List Nat)) (h : (st.map Prod.fst).Nodup) :
    (hash_object_w compress t c (hash_object_w compress t c st).2.1).1 =
      (hash_object_w compress t c st).1 ∧
    (hash_object_w compress t c (hash_object_w compress t c st).2.1).2.1 =
      (hash_object_w compress t c st).2.1 ∧
    ((hash_object_w compress t c st).2.1.map Prod.fst).count
      (objPath (hash_object_w compress t c st).1) = 1 := by
  refine ⟨rfl, ?_, ?_⟩
  · show fsUpdate (fsUpdate st _ _) _ _ = fsUpdate st _ _
    exact fsUpdate_idem st _ _
  · exact count_fsUpdate st _ _ h

set_option maxRecDepth 10000 in
/-- C5 witness: the double write of blob x into the empty store. -/
theorem C5_idempotent_rewrite_witness :
    (([] : List (String × List Nat)).map Prod.fst).Nodup ∧
    ((hash_object_w id "blob" (strBytes "x")
        (hash_object_w id "blob" (strBytes "x") []).2.1).1 =
      (hash_object_w id "blob" (strBytes "x") []).1 ∧
    (hash_object_w id "blob" (strBytes "x")
        (hash_object_w id "blob" (strBytes "x") []).2.1).2.1 =
      (hash_object_w id "blob" (strBytes "x") []).2.1 ∧
    ((hash_object_w id "blob" (strBytes "x") []).2.1.map Prod.fst).count
      (objPath (hash_object_w id "blob" (strBytes "x") []).1) = 1) :=
  ⟨by decide, C5_idempotent_rewrite id "blob" (strBytes "x") [] (by decide)⟩

/-- C6: for every entry list with duplicate-free, slash-free names (as the
entries of one directory always are), the sorted output of the write_tree
comparator is strictly ascending under byte order of the names with `/`
appended to directory-typed entries; in particular foo.txt, foo (a
directory) and foo2 serialize in the order foo.txt, foo, foo2. -/
theorem C6_tree_entry_order (l : List TreeEntry)
    (hnd : (l.map TreeEntry.name).Nodup) (hsl : ∀ e ∈ l, 47 ∉ e.name) :
    (sortEntries l).Pairwise
      (fun a b => cmpBytes (sortKey a) (sortKey b) = Ordering.lt) ∧
    (sortEntries fooExample).map TreeEntry.name =
      [strBytes "foo.txt", strBytes "foo", strBytes "foo2"] := by
  constructor
  · have hperm := sortEntries_perm l
    have hle := sortEntries_pairwise l
    have hname : l.Pairwise (fun a b => a.name ≠ b.name) := List.pairwise_map.mp hnd
    have hkey : l.Pairwise (fun a b => sortKey a ≠ sortKey b) :=
      hname.imp_of_mem (fun {a b} ha hb hne =>
        sortKey_ne_of_name_ne (hsl a ha) (hsl b hb) hne)
    have hkey2 : (sortEntries l).Pairwise (fun a b => sortKey a ≠ sortKey b) :=
      ((hperm.pairwise_iff (fun hne he => hne he.symm)).mpr hkey)
    refine (hle.and hkey2).imp ?_
    intro a b hab
    obtain ⟨h1, h2⟩ := hab
    rw [entryCmp_eq_keyCmp] at h1
    cases hv : cmpBytes (sortKey a) (sortKey b) with
    | lt => rfl
    | eq => exact absurd ((cmpBytes_eq_iff _ _).mp hv) h2
    | gt => exact absurd hv h1
  · decide

/-- C6 witness: the foo example satisfies both hypotheses and its sorted
order is foo.txt, foo, foo2. -/
theorem C6_tree_entry_order_witness :
    ((fooExample.map TreeEntry.name).Nodup ∧ (∀ e ∈ fooExample, 47 ∉ e.name)) ∧
    ((sortEntries fooExample).Pairwise
      (fun a b => cmpBytes (sortKey a) (sortKey b) = Ordering.lt) ∧
    (sortEntries fooExample).map TreeEntry.name =
      [strBytes "foo.txt", strBytes "foo", strBytes "foo2"]) :=
  ⟨⟨by decide, by decide⟩, C6_tree_entry_order fooExample (by decide) (by decide)⟩

/-- C8 counterexample: a read-only regular file (platform mode 0o100444)
gets the mode string 100444 — the permission bits pass through instead of
collapsing to one of the four values the claim lists (and a directory gets
40000, not 040000). -/
theorem C8_counterexample :
    mode_to_string 33060 = .ok "100444" ∧
    "100444" ∉ ["040000", "100644", "100755", "120000"] ∧
    mode_to_string 16877 = .ok "40000" ∧
    "40000" ∉ ["040000", "100644", "100755", "120000"] := by
  decide

/-- C8 (amended): `mode_to_string` gives 40000 (five digits) for every
directory mode, 120000 for every symlink mode, the zero-padded six-digit
octal of the whole platform mode for every regular-file mode (permission
bits uncollapsed), and panics — rather than returning a typed
UnsupportedFileType — on every other file type. -/
theorem C8_mode_cases (m : Nat) :
    (m &&& 61440 = 16384 → mode_to_string m = .ok "40000") ∧
    (m &&& 61440 = 40960 → mode_to_string m = .ok "120000") ∧
    (m &&& 61440 = 32768 →
      mode_to_string m = .ok (bytes_to_string (padZero6 (natOctBytes m)))) ∧
    (m &&& 61440 ≠ 16384 → m &&& 61440 ≠ 40960 → m &&& 61440 ≠ 32768 →
      mode_to_string m = .error .panic) := by
  refine ⟨?_, ?_, ?_, ?_⟩
  · intro h
    simp [mode_to_string, h]
    decide
  · intro h
    simp [mode_to_string, h]
    decide
  · intro h
    simp [mode_to_string, h]
  · intro h1 h2 h3
    simp [mode_to_string, h1, h2, h3]

/-- C8 witness: the four cases at the modes of the repo test
(0o40755 directory, 0o120000 symlink, 0o100444 regular, 0o60000 block
device). -/
theorem C8_mode_cases_witness :
    ((16877 : Nat) &&& 61440 = 16384 ∧ mode_to_string 16877 = .ok "40000") ∧
    ((40960 : Nat) &&& 61440 = 40960 ∧ mode_to_string 40960 = .ok "120000") ∧
    ((33060 : Nat) &&& 61440 = 32768 ∧
      mode_to_string 33060 = .ok (bytes_to_string (padZero6 (natOctBytes 33060)))) ∧
    ((24576 : Nat) &&& 61440 ≠ 16384 ∧ mode_to_string 24576 = .error .panic) :=
  ⟨⟨by decide, (C8_mode_cases 16877).1 (by decide)⟩,
    ⟨by decide, (C8_mode_cases 40960).2.1 (by decide)⟩,
    ⟨by decide, (C8_mode_cases 33060).2.2.1 (by decide)⟩,
    ⟨by decide, (C8_mode_cases 24576).2.2.2 (by decide) (by decide) (by decide)⟩⟩

set_option maxRecDepth 10000 in
/-- C10 counterexample: building the tree over a directory holding a.txt
and an empty subdirectory sub neither fails nor skips the subdirectory —
the resulting tree lists both a.txt and sub. -/
theorem C10_counterexample :
    (write_tree 4 demoDir).map (fun r => r.2.map TreeEntry.name) =
      .ok [strBytes "a.txt", strBytes "sub"] ∧
    (write_tree 4 demoDir).map (fun r => r.2.map TreeEntry.name) ≠
      .ok [strBytes "a.txt"] := by
  decide

set_option maxRecDepth 10000 in
/-- C10 (amended): the empty subdirectory is recursed into, written as the
empty tree 4b825dc642cb6eb9a060e54bf8d69288fbee4904, and included as a
40000-mode entry beside the a.txt blob entry in the parent tree. -/
theorem C10_empty_subdir_included :
    write_tree 4 demoDir =
      .ok ("b82156768bf012710817a9dbedc9d920bd5885bf",
        [⟨strBytes "a.txt", "100644", "c1b0730e0133447badcfd47fd144e254807b06e1"⟩,
          ⟨strBytes "sub", "40000", "4b825dc642cb6eb9a060e54bf8d69288fbee4904"⟩]) := by
  decide
